import Mathlib

/-!
Verification of the strace filtering core (basic_filters.c, filter_qualify.c,
filter_action.c, filter.h) against its specification.

The C code is shallowly embedded: strings are lists of characters, the
growable bit vector of a number_set is a list of 32-bit machine words
(represented as Nat; all operations keep every slot below 2^32), fatal
errors (error_msg_and_die) are represented by Option.none, and external
tables (syscall tables, errno names, signal names, the POSIX regex
matcher, match_fd_common) are parameters of the embedded functions.
-/

namespace StraceFilter

/-! ## NumberSet (basic_filters.c lines 34-79) -/

/-- BITS_PER_SLOT: a slot is an unsigned int, 32 bits. -/
def BITS_PER_SLOT : Nat := 32

/-- struct number_set: a growable bit vector plus an inversion flag.
nslots is the length of vec. -/
structure number_set where
  vec : List Nat
  not : Bool
deriving DecidableEq

/-- number_setbit: set bit i in the slot vector (the slot is assumed
allocated, as in the C code where the caller reallocates first). -/
def number_setbit (i : Nat) (vec : List Nat) : List Nat :=
  vec.set (i / BITS_PER_SLOT) ((vec.getD (i / BITS_PER_SLOT) 0) ||| (1 <<< (i % BITS_PER_SLOT)))

/-- number_isset: test bit i of the slot vector. -/
def number_isset (i : Nat) (vec : List Nat) : Bool :=
  (vec.getD (i / BITS_PER_SLOT) 0) &&& (1 <<< (i % BITS_PER_SLOT)) != 0

/-- reallocate_number_set on the vector: grow to new_nslots slots,
zero-filling the new slots; never shrink. -/
def reallocate_vec (vec : List Nat) (new_nslots : Nat) : List Nat :=
  if new_nslots ≤ vec.length then vec
  else vec ++ List.replicate (new_nslots - vec.length) 0

/-- add_number_to_set: grow the vector to cover the number, then set its
bit.  Only the vector changes; the inversion flag is untouched. -/
def add_number_to_set (number : Nat) (set : number_set) : number_set :=
  { set with vec := number_setbit number (reallocate_vec set.vec (number / BITS_PER_SLOT + 1)) }

/-- is_number_in_set: ((number in allocated range AND bit set) XOR not). -/
def is_number_in_set (number : Nat) (set : number_set) : Bool :=
  Bool.xor (decide (number / BITS_PER_SLOT < set.vec.length) && number_isset number set.vec) set.not

/-- Toggle the inversion flag of one set (set->not = !set->not). -/
def flipNot (s : number_set) : number_set := { s with not := !s.not }

/-- Toggle the inversion flag of every personality's set. -/
def flip_all (ss : List number_set) : List number_set := ss.map flipNot

/-- Two number_sets that are equal as sets: same inversion flag and the
same membership for every number (allocated length may differ by
trailing zero slots). -/
def set_sem_eq (a b : number_set) : Prop :=
  a.not = b.not ∧ ∀ n, is_number_in_set n a = is_number_in_set n b

/-! ## Integer parsers (util.c, not under src/).

Modelled from the spec: the environment provides string_to_uint,
string_to_uint_upto(max) and string_to_uint_ex(&end, max,
accepted_ending): parse a decimal number, reject an empty digit string
and values above max; string_to_uint_ex additionally allows the digits
to be followed by one of the accepted ending characters and reports the
rest of the string from that character on. -/

/-- Value of a decimal digit string. -/
def digit_val (ds : List Char) : Nat :=
  ds.foldl (fun a c => a * 10 + (c.toNat - 48)) 0

/-- Modelled from the spec: string_to_uint_ex (util.c, not under src/).
Returns the parsed value together with the unconsumed rest (empty, or
starting with an accepted ending character); none on error. -/
def string_to_uint_ex (s : List Char) (accepted : List Char) (max : Nat) :
    Option (Nat × List Char) :=
  let ds := s.takeWhile Char.isDigit
  let rest := s.dropWhile Char.isDigit
  if ds.isEmpty then none
  else if max < digit_val ds then none
  else
    match rest with
    | [] => some (digit_val ds, [])
    | c :: _ => if accepted.contains c then some (digit_val ds, rest) else none

/-- Modelled from the spec: string_to_uint_upto (util.c, not under src/):
the whole string must be digits. -/
def string_to_uint_upto (s : List Char) (max : Nat) : Option Nat :=
  (string_to_uint_ex s [] max).map Prod.fst

/-- Modelled from the spec: string_to_uint (util.c, not under src/),
bounded by INT_MAX. -/
def string_to_uint (s : List Char) : Option Nat :=
  string_to_uint_upto s 2147483647

/-! ## Tokenizer (strtok_r splitting, used by both set parsers). -/

/-- Accumulating splitter: strtok_r semantics, maximal nonempty runs of
non-delimiter characters. -/
def split_tokens_go (delim : Char) : List Char → List Char → List (List Char)
  | [], acc => if acc.isEmpty then [] else [acc.reverse]
  | c :: rest, acc =>
    if c = delim then
      if acc.isEmpty then split_tokens_go delim rest []
      else acc.reverse :: split_tokens_go delim rest []
    else split_tokens_go delim rest (c :: acc)

/-- Split a string into the nonempty tokens separated by delim, exactly
as the strtok_r loops in parse_syscall_set, parse_set and
parse_inject_common_args do. -/
def split_tokens (delim : Char) (s : List Char) : List (List Char) :=
  split_tokens_go delim s []

/-! ## Syscall tables and the syscall-set parser
(basic_filters.c lines 81-312). -/

/-- One sysent entry: an optional name and a flag word. -/
structure sysent_entry where
  sys_name : Option (List Char)
  sys_flags : Nat
deriving DecidableEq

/-- External collaborators of the syscall-set parser: the per-personality
syscall tables (nsyscall_vec p is the length of the p-th table) and the
POSIX regex matcher (regex_match pattern name; compilation or execution
failures, which are fatal in the C code, are outside the claims). -/
structure SyscallEnv where
  pers : List (List sysent_entry)
  regex_match : List Char → List Char → Bool

/-- Modelled from the spec: TRACE_DESC class bit (defs.h, not under src/). -/
def TRACE_DESC : Nat := 1
/-- Modelled from the spec: TRACE_FILE class bit. -/
def TRACE_FILE : Nat := 2
/-- Modelled from the spec: TRACE_MEMORY class bit. -/
def TRACE_MEMORY : Nat := 4
/-- Modelled from the spec: TRACE_PROCESS class bit. -/
def TRACE_PROCESS : Nat := 8
/-- Modelled from the spec: TRACE_SIGNAL class bit. -/
def TRACE_SIGNAL : Nat := 16
/-- Modelled from the spec: TRACE_IPC class bit. -/
def TRACE_IPC : Nat := 32
/-- Modelled from the spec: TRACE_NETWORK class bit. -/
def TRACE_NETWORK : Nat := 64
/-- Modelled from the spec: TRACE_STAT class bit. -/
def TRACE_STAT : Nat := 128
/-- Modelled from the spec: TRACE_LSTAT class bit. -/
def TRACE_LSTAT : Nat := 256
/-- Modelled from the spec: TRACE_FSTAT class bit. -/
def TRACE_FSTAT : Nat := 512
/-- Modelled from the spec: TRACE_STAT_LIKE class bit. -/
def TRACE_STAT_LIKE : Nat := 1024
/-- Modelled from the spec: TRACE_STATFS class bit. -/
def TRACE_STATFS : Nat := 2048
/-- Modelled from the spec: TRACE_FSTATFS class bit. -/
def TRACE_FSTATFS : Nat := 4096
/-- Modelled from the spec: TRACE_STATFS_LIKE class bit. -/
def TRACE_STATFS_LIKE : Nat := 8192

/-- syscall_class table of lookup_class (basic_filters.c lines 147-172). -/
def syscall_class_table : List (List Char × Nat) :=
  [("desc".data, TRACE_DESC), ("file".data, TRACE_FILE),
   ("memory".data, TRACE_MEMORY), ("process".data, TRACE_PROCESS),
   ("signal".data, TRACE_SIGNAL), ("ipc".data, TRACE_IPC),
   ("network".data, TRACE_NETWORK),
   ("%desc".data, TRACE_DESC), ("%file".data, TRACE_FILE),
   ("%memory".data, TRACE_MEMORY), ("%process".data, TRACE_PROCESS),
   ("%signal".data, TRACE_SIGNAL), ("%ipc".data, TRACE_IPC),
   ("%network".data, TRACE_NETWORK),
   ("%stat".data, TRACE_STAT), ("%lstat".data, TRACE_LSTAT),
   ("%fstat".data, TRACE_FSTAT), ("%%stat".data, TRACE_STAT_LIKE),
   ("%statfs".data, TRACE_STATFS), ("%fstatfs".data, TRACE_FSTATFS),
   ("%%statfs".data, TRACE_STATFS_LIKE)]

/-- lookup_class: the in-loop guard (!qualify_mode && *s != a percent
sign) is loop-invariant, so it is hoisted in front of the table search. -/
def lookup_class (s : List Char) (qualify_mode : Bool) : Nat :=
  if ¬qualify_mode ∧ s.head? ≠ some '%' then 0
  else
    match syscall_class_table.find? (fun e => s = e.1) with
    | some e => e.2
    | none => 0

/-- Inner loop shared by the regex, class and name parsers: walk one
personality's sysent table, add every index whose entry satisfies the
predicate, and report whether anything was added (ORed into fnd). -/
def add_sel_go (pred : sysent_entry → Bool) :
    List sysent_entry → Nat → Bool → number_set → Bool × number_set
  | [], _, fnd, set => (fnd, set)
  | e :: rest, i, fnd, set =>
    if pred e then add_sel_go pred rest (i + 1) true (add_number_to_set i set)
    else add_sel_go pred rest (i + 1) fnd set

/-- Outer loop shared by all syscall token parsers: apply f to every
personality's table/set pair, OR the per-personality found flags. -/
def over_pers (f : List sysent_entry → number_set → Bool × number_set) :
    List (List sysent_entry) → List number_set → Bool × List number_set
  | [], ss => (false, ss)
  | _ :: _, [] => (false, [])
  | t :: ts, s :: ss =>
    let r := f t s
    let rr := over_pers f ts ss
    (r.1 || rr.1, r.2 :: rr.2)

/-- parse_syscall_number: numeric token, added to every personality where
the number is below that personality's syscall count. -/
def parse_syscall_number (env : SyscallEnv) (s : List Char)
    (sets : List number_set) : Bool × List number_set :=
  match string_to_uint s with
  | none => (false, sets)
  | some n =>
    over_pers (fun tbl set =>
      if n < tbl.length then (true, add_number_to_set n set) else (false, set))
      env.pers sets

/-- parse_syscall_regex: add every named syscall whose name matches. -/
def parse_syscall_regex (env : SyscallEnv) (s : List Char)
    (sets : List number_set) : Bool × List number_set :=
  over_pers (fun tbl set =>
    add_sel_go (fun e =>
      match e.sys_name with
      | some nm => env.regex_match s nm
      | none => false) tbl 0 false set) env.pers sets

/-- parse_syscall_class: all syscalls whose flag word contains every bit
of the class value. -/
def parse_syscall_class (env : SyscallEnv) (s : List Char)
    (sets : List number_set) (qualify_mode : Bool) : Bool × List number_set :=
  let n := lookup_class s qualify_mode
  if n = 0 then (false, sets)
  else
    let r := over_pers (fun tbl set =>
      add_sel_go (fun e => e.sys_name.isSome && decide ((e.sys_flags &&& n) = n))
        tbl 0 false set) env.pers sets
    (true, r.2)

/-- parse_syscall_name: every personality owning a syscall of that exact
name receives its index. -/
def parse_syscall_name (env : SyscallEnv) (s : List Char)
    (sets : List number_set) : Bool × List number_set :=
  over_pers (fun tbl set =>
    add_sel_go (fun e => decide (e.sys_name = some s)) tbl 0 false set)
    env.pers sets

/-- Leading question-mark stripping of parse_syscall: returns the token
without its leading question marks and the ignore_fail flag. -/
def strip_qs : List Char → List Char × Bool
  | c :: rest => if c = '?' then ((strip_qs rest).1, true) else (c :: rest, false)
  | [] => ([], false)

/-- Dispatch on the first character of the stripped token (the body of
parse_syscall after its question-mark loop): digit, slash-regex,
class-or-name, each rescued by ignore_fail. -/
def parse_syscall_stripped (env : SyscallEnv) (tok : List Char) (ignore_fail : Bool)
    (sets : List number_set) (qualify_mode : Bool) : Bool × List number_set :=
  match tok with
  | c :: rest =>
    if '0' ≤ c ∧ c ≤ '9' then
      match parse_syscall_number env (c :: rest) sets with
      | (d, ss) => (d || ignore_fail, ss)
    else if c = '/' then
      match parse_syscall_regex env rest sets with
      | (d, ss) => (d || ignore_fail, ss)
    else
      match parse_syscall_class env (c :: rest) sets qualify_mode with
      | (true, ss) => (true, ss)
      | (false, ss) =>
        match parse_syscall_name env (c :: rest) ss with
        | (d, ss2) => (d || ignore_fail, ss2)
  | [] =>
    match parse_syscall_class env [] sets qualify_mode with
    | (true, ss) => (true, ss)
    | (false, ss) =>
      match parse_syscall_name env [] ss with
      | (d, ss2) => (d || ignore_fail, ss2)

/-- parse_syscall (basic_filters.c lines 231-247): strip the leading
question marks, then dispatch on the remaining token. -/
def parse_syscall (env : SyscallEnv) (token : List Char)
    (sets : List number_set) (qualify_mode : Bool) : Bool × List number_set :=
  parse_syscall_stripped env (strip_qs token).1 (strip_qs token).2 sets qualify_mode

/-- Leading exclamation-mark loop of parse_syscall_set: each bang flips
the inversion flag of every personality's set. -/
def strip_bangs : List Char → List number_set → List Char × List number_set
  | c :: rest, ss =>
    if c = '!' then strip_bangs rest (flip_all ss) else (c :: rest, ss)
  | [], ss => ([], ss)

/-- Token loop of parse_syscall_set: every token must parse (a failing
token is a fatal error, none). -/
def syscall_token_loop (env : SyscallEnv) (qualify_mode : Bool) :
    List (List Char) → List number_set → Option (List number_set)
  | [], sets => some sets
  | t :: ts, sets =>
    let r := parse_syscall env t sets qualify_mode
    if r.1 then syscall_token_loop env qualify_mode ts r.2 else none

/-- Body of parse_syscall_set after bang stripping: none / all keywords,
otherwise the comma token loop (no tokens at all is a fatal error). -/
def parse_syscall_set_core (env : SyscallEnv) (s : List Char)
    (sets : List number_set) (qualify_mode : Bool) : Option (List number_set) :=
  if s = "none".data then some sets
  else if s = "all".data then some (flip_all sets)
  else
    let toks := split_tokens ',' s
    if toks.isEmpty then none
    else syscall_token_loop env qualify_mode toks sets

/-- parse_syscall_set (basic_filters.c lines 253-312): in qualify mode
consume every leading bang, flipping every personality's inversion flag
once per bang, then parse the rest. -/
def parse_syscall_set (env : SyscallEnv) (str : List Char)
    (sets : List number_set) (qualify_mode : Bool) : Option (List number_set) :=
  let sb := if qualify_mode then strip_bangs str sets else (str, sets)
  parse_syscall_set_core env sb.1 sb.2 qualify_mode

/-! ## Generic set parser (basic_filters.c lines 347-412). -/

/-- Leading bang loop of parse_set, on a single set. -/
def strip_bangs_one : List Char → number_set → List Char × number_set
  | c :: rest, set =>
    if c = '!' then strip_bangs_one rest (flipNot set) else (c :: rest, set)
  | [], set => ([], set)

/-- Token loop of parse_set: resolve each token through the caller's
function; a negative answer (none) is a fatal error. -/
def set_token_loop (func : List Char → Option Nat) :
    List (List Char) → number_set → Option number_set
  | [], set => some set
  | t :: ts, set =>
    match func t with
    | none => none
    | some n => set_token_loop func ts (add_number_to_set n set)

/-- Body of parse_set after bang stripping: none / all keywords,
otherwise the comma token loop (no tokens at all is a fatal error). -/
def parse_set_core (s : List Char) (set : number_set)
    (func : List Char → Option Nat) : Option number_set :=
  if s = "none".data then some set
  else if s = "all".data then some (flipNot set)
  else
    let toks := split_tokens ',' s
    if toks.isEmpty then none
    else set_token_loop func toks set

/-- parse_set: same shell as parse_syscall_set but with a single set and
a caller-supplied resolver (fatal errors are none). -/
def parse_set (str : List Char) (set : number_set)
    (func : List Char → Option Nat) (qualify_mode : Bool) : Option number_set :=
  let sb := if qualify_mode then strip_bangs_one str set else (str, set)
  parse_set_core sb.1 sb.2 func

/-- parse_fd_filter: a freshly calloc-ed set filled by parse_set with the
string_to_uint resolver. -/
def parse_fd_filter (str : List Char) (qualify_mode : Bool) : Option number_set :=
  parse_set str ⟨[], false⟩ string_to_uint qualify_mode

/-! ## fd filter runtime (basic_filters.c lines 414-439). -/

/-- Modelled from the spec: the SEN_mq_timedsend semantic tag (generated
sen enumeration, not under src/); only distinctness matters. -/
def SEN_mq_timedsend : Nat := 100

/-- Modelled from the spec: the SEN_mq_timedreceive semantic tag. -/
def SEN_mq_timedreceive : Nat := 101

/-- Per-event view of a traced task (struct tcb): the fields the embedded
filter core reads. -/
structure tcb where
  scno : Nat
  u_arg : List Int
  sen : Nat

/-- is_fd_in_set: a negative fd answers the inversion flag, otherwise a
plain membership test. -/
def is_fd_in_set (tcp : tcb) (fd : Int) (set : number_set) : Bool :=
  if fd < 0 then set.not else is_number_in_set fd.toNat set

/-- run_fd_filter: mq_timedsend / mq_timedreceive carry the descriptor in
argument 0; every other syscall goes through the external
match_fd_common walker (a parameter mfc of the embedding). -/
def run_fd_filter (mfc : tcb → (tcb → Int → number_set → Bool) → number_set → Bool)
    (tcp : tcb) (set : number_set) : Bool :=
  if tcp.sen = SEN_mq_timedsend ∨ tcp.sen = SEN_mq_timedreceive then
    is_fd_in_set tcp (tcp.u_arg.getD 0 0) set
  else mfc tcp is_fd_in_set set

/-! ## Inject options (filter_qualify.c lines 33-182, 277-309). -/

/-- Modelled from the spec: MAX_ERRNO_VALUE (defs.h, not under src/). -/
def MAX_ERRNO_VALUE : Nat := 4095

/-- Modelled from the spec: the default sentinel of inject_opts.rval,
distinct from every valid injected value (negated errnos reach only
-MAX_ERRNO_VALUE, retvals are nonnegative). -/
def INJECT_OPTS_RVAL_DEFAULT : Int := -4096

/-- Modelled from the spec: the ENOSYS errno number (Linux value 38). -/
def ENOSYS : Nat := 38

/-- Modelled from the spec: NSIG_BYTES (nsig.h, not under src/);
NSIG_BYTES * 8 is the number of signals. -/
def NSIG_BYTES : Nat := 8

/-- struct inject_opts. -/
structure inject_opts where
  first : Nat
  step : Nat
  rval : Int
  signo : Nat
  init : Bool
deriving DecidableEq

/-- Defaults installed at the top of parse_inject_common_args. -/
def inject_opts_defaults : inject_opts :=
  ⟨1, 1, INJECT_OPTS_RVAL_DEFAULT, 0, false⟩

/-- External name tables consumed by the inject parsers: the errno name
table (errnoent / nerrnos) and the signal name function (signame). -/
structure InjectEnv where
  errnoent : List (Option (List Char))
  signame : Nat → List Char

/-- Case-insensitive string equality (strcasecmp == 0). -/
def str_caseeq (a b : List Char) : Bool :=
  a.map Char.toLower == b.map Char.toLower

/-- Name part of sigstr_to_uint: strip an optional case-insensitive SIG
front, then search signame(0..255) for a SIG-named entry whose remainder
matches case-insensitively. -/
def sig_name_lookup (env : InjectEnv) (s : List Char) : Option Nat :=
  let s1 := if str_caseeq (s.take 3) "SIG".data then s.drop 3 else s
  (List.range 256).find? (fun i =>
    str_caseeq ((env.signame i).take 3) "SIG".data
      && str_caseeq ((env.signame i).drop 3) s1)

/-- sigstr_to_uint (filter_qualify.c lines 43-69). -/
def sigstr_to_uint (env : InjectEnv) (s : List Char) : Option Nat :=
  match s.head? with
  | some c =>
    if '0' ≤ c ∧ c ≤ '9' then string_to_uint_upto s 255
    else sig_name_lookup env s
  | none => sig_name_lookup env s

/-- find_errno_by_name (filter_qualify.c lines 71-82): scan indices
1..nerrnos-1 for a case-insensitive match. -/
def find_errno_by_name (env : InjectEnv) (name : List Char) : Option Nat :=
  (List.range' 1 (env.errnoent.length - 1)).find? (fun i =>
    match env.errnoent.getD i none with
    | some e => str_caseeq name e
    | none => false)

/-- STR_STRIP_PREFIX: some rest when the token starts with the given
front string, none otherwise. -/
def strip_pre (pre s : List Char) : Option (List Char) :=
  if s.take pre.length = pre then some (s.drop pre.length) else none

/-- parse_inject_token (filter_qualify.c lines 84-149).  Returns the C
function's boolean result together with the (possibly partially
updated) inject_opts, matching the C code's in-place mutation. -/
def parse_inject_token (env : InjectEnv) (token : List Char)
    (fopts : inject_opts) (fault_tokens_only : Bool) : Bool × inject_opts :=
  match strip_pre "when=".data token with
  | some val =>
    (match string_to_uint_ex val ['+'] 0xffff with
     | none => (false, fopts)
     | some r =>
       if r.1 < 1 then (false, fopts)
       else
         let fopts1 := { fopts with first := r.1 }
         match r.2 with
         | [] => (true, { fopts1 with step := 0 })
         | _ :: val2 =>
           (match val2 with
            | [] => (true, { fopts1 with step := 1 })
            | _ :: _ =>
              match string_to_uint_upto val2 0xffff with
              | none => (false, fopts1)
              | some sv =>
                if sv < 1 then (false, fopts1)
                else (true, { fopts1 with step := sv })))
  | none =>
  match strip_pre "error=".data token with
  | some val =>
    if fopts.rval ≠ INJECT_OPTS_RVAL_DEFAULT then (false, fopts)
    else
      (match (match string_to_uint_upto val MAX_ERRNO_VALUE with
              | some v => some v
              | none => find_errno_by_name env val) with
       | none => (false, fopts)
       | some v =>
         if v < 1 then (false, fopts)
         else (true, { fopts with rval := -(v : Int) }))
  | none =>
  if fault_tokens_only then (false, fopts)
  else
  match strip_pre "retval=".data token with
  | some val =>
    if fopts.rval ≠ INJECT_OPTS_RVAL_DEFAULT then (false, fopts)
    else
      (match string_to_uint val with
       | none => (false, fopts)
       | some v => (true, { fopts with rval := (v : Int) }))
  | none =>
  match strip_pre "signal=".data token with
  | some val =>
    (match sigstr_to_uint env val with
     | none => (false, fopts)
     | some v =>
       if v < 1 ∨ NSIG_BYTES * 8 < v then (false, fopts)
       else (true, { fopts with signo := v }))
  | none => (false, fopts)

/-- Token loop of parse_inject_common_args: true when every token parsed
(the loop completed), false with the state at the failing token
otherwise. -/
def inject_token_loop (env : InjectEnv) (fault_tokens_only : Bool) :
    List (List Char) → inject_opts → Bool × inject_opts
  | [], o => (true, o)
  | t :: ts, o =>
    let r := parse_inject_token env t o fault_tokens_only
    if r.1 then inject_token_loop env fault_tokens_only ts r.2 else (false, r.2)

/-- parse_inject_common_args (filter_qualify.c lines 151-182).  A NULL
argument string is represented by the empty list (no tokens). -/
def parse_inject_common_args (env : InjectEnv) (str : List Char)
    (fault_tokens_only : Bool) (qualify_mode : Bool) : inject_opts :=
  let delim := if qualify_mode then ':' else ';'
  let r := inject_token_loop env fault_tokens_only
    (split_tokens delim str) inject_opts_defaults
  if r.1 then
    if r.2.rval = INJECT_OPTS_RVAL_DEFAULT ∧ r.2.signo = 0 then
      if fault_tokens_only then { r.2 with rval := -(ENOSYS : Int), init := true }
      else r.2
    else { r.2 with init := true }
  else r.2

/-- Modelled from the spec: a concrete errno table fragment with ENOSYS
at its Linux index 38, for closed evaluation of the embedding. -/
def errnoent_model : List (Option (List Char)) :=
  List.replicate 38 none ++ [some "ENOSYS".data]

/-- Concrete inject environment built on errnoent_model (the signal name
table is unused by the claims evaluated closed). -/
def inject_env_model : InjectEnv := ⟨errnoent_model, fun _ => []⟩

/-! ## Signal qualification (filter_qualify.c lines 210-223). -/

/-- qualify_signals: zero every allocated slot of the global signal_set,
reset its inversion flag, then parse the new list into it with the
sigstr_to_uint resolver. -/
def qualify_signals (env : InjectEnv) (main_part : List Char)
    (sig : number_set) : Option number_set :=
  parse_set main_part ⟨List.replicate sig.vec.length 0, false⟩
    (sigstr_to_uint env) true

/-! ## Filter actions (filter_action.c). -/

/-- Modelled from the spec: QUAL_TRACE qualifier bit (defs.h, not under
src/); the exact bit positions are immaterial, only distinctness. -/
def QUAL_TRACE : Nat := 1
/-- Modelled from the spec: QUAL_ABBREV qualifier bit. -/
def QUAL_ABBREV : Nat := 2
/-- Modelled from the spec: QUAL_VERBOSE qualifier bit. -/
def QUAL_VERBOSE : Nat := 4
/-- Modelled from the spec: QUAL_RAW qualifier bit. -/
def QUAL_RAW : Nat := 8
/-- Modelled from the spec: QUAL_INJECT qualifier bit. -/
def QUAL_INJECT : Nat := 16
/-- Modelled from the spec: QUAL_SIGNAL qualifier bit. -/
def QUAL_SIGNAL : Nat := 32
/-- Modelled from the spec: QUAL_READ qualifier bit. -/
def QUAL_READ : Nat := 64
/-- Modelled from the spec: QUAL_WRITE qualifier bit. -/
def QUAL_WRITE : Nat := 128

/-- Modelled from the spec: DEFAULT_QUAL_FLAGS, initially all qualifier
bits set. -/
def DEFAULT_QUAL_FLAGS : Nat :=
  QUAL_TRACE ||| QUAL_ABBREV ||| QUAL_VERBOSE ||| QUAL_RAW |||
  QUAL_INJECT ||| QUAL_SIGNAL ||| QUAL_READ ||| QUAL_WRITE

/-- struct filter_action_type (filter_action.c lines 63-71): name, static
priority (0 is highest), qualifier flag bit, and whether parse_args is a
real parser (parse_args != parse_null). -/
structure filter_action_type where
  name : List Char
  priority : Nat
  qual_flg : Nat
  takes_args : Bool
deriving DecidableEq

/-- action_types table (filter_action.c lines 71-80). -/
def action_types : List filter_action_type :=
  [⟨"trace".data, 0, QUAL_TRACE, false⟩,
   ⟨"inject".data, 1, QUAL_INJECT, true⟩,
   ⟨"fault".data, 1, QUAL_INJECT, true⟩,
   ⟨"read".data, 2, QUAL_READ, false⟩,
   ⟨"write".data, 2, QUAL_WRITE, false⟩,
   ⟨"raw".data, 2, QUAL_RAW, false⟩,
   ⟨"abbrev".data, 2, QUAL_ABBREV, false⟩,
   ⟨"verbose".data, 2, QUAL_VERBOSE, false⟩]

/-- struct filter_action: the id (insertion sequence number, the sort
tie-breaker) and the type; the expression, filter list and private data
play no role in the ordering claims. -/
structure filter_action where
  id : Nat
  type : filter_action_type
deriving DecidableEq

/-- compare_action_priority (filter_action.c lines 103-116): ascending
priority, LIFO (descending id) within a priority class. -/
def compare_action_priority (a b : filter_action) : Int :=
  if a.type.priority ≠ b.type.priority then
    (if a.type.priority < b.type.priority then -1 else 1)
  else (if a.id > b.id then -1 else 1)

/-- Order installed by qsort: a before b when the comparator answers
nonpositive. -/
def action_le (a b : filter_action) : Prop :=
  compare_action_priority a b ≤ 0

instance action_le_dec : DecidableRel action_le :=
  fun a b => Int.decLe (compare_action_priority a b) 0

/-- Postcondition of the qsort call in filtering_parsing_finish
(filter_action.c lines 143-146): the finalised list is a permutation of
the registered actions, sorted by the comparator. -/
def filtering_parsing_finish_post (L Lsorted : List filter_action) : Prop :=
  Lsorted.Perm L ∧ Lsorted.Sorted action_le

/-- Process-wide registration state mutated by add_action: the
default_flags bitmask and the filter_actions vector. -/
structure FilterActionState where
  default_flags : Nat
  filter_actions : List filter_action
deriving DecidableEq

/-- Bitwise complement of a 32-bit flag word. -/
def cnot32 (x : Nat) : Nat := x ^^^ (2 ^ 32 - 1)

/-- add_action (filter_action.c lines 168-185): clear the type's
qualifier bit from default_flags when it is still set, then append a new
action whose id is the previous count. -/
def add_action (type : filter_action_type) (st : FilterActionState) :
    FilterActionState :=
  ⟨if st.default_flags &&& type.qual_flg ≠ 0
      then st.default_flags &&& cnot32 type.qual_flg
      else st.default_flags,
   st.filter_actions ++ [⟨st.filter_actions.length, type⟩]⟩

/-- Fold a sequence of add_action calls over the state. -/
def add_actions (ts : List filter_action_type) (st : FilterActionState) :
    FilterActionState :=
  ts.foldl (fun s t => add_action t s) st

/-- Initial registration state. -/
def filter_state_init : FilterActionState := ⟨DEFAULT_QUAL_FLAGS, []⟩

/-- Raw bit membership, without the inversion flag: in range and bit set. -/
def raw_in_set (m : Nat) (s : number_set) : Bool :=
  decide (m / BITS_PER_SLOT < s.vec.length) && number_isset m s.vec

/-! ## Theorems -/

theorem isset_testBit (x k : Nat) :
    ((x &&& (1 <<< k)) != 0) = Nat.testBit x k := by
  have h2 : (2 : Nat) ^ k ≠ 0 := Nat.pos_iff_ne_zero.mp (Nat.pos_pow_of_pos k (by norm_num))
  rw [Nat.shiftLeft_eq, one_mul, Nat.and_two_pow]
  cases h : Nat.testBit x k <;> simp [h, h2]

/-- C1: the membership test is ((n within the allocated slot range AND
bit n set in the vector) XOR invert); any n whose slot index is at or
past the allocated range yields exactly the invert flag. -/
theorem is_number_in_set_spec (n : Nat) (S : number_set) :
    (is_number_in_set n S
      = Bool.xor (decide (n / BITS_PER_SLOT < S.vec.length)
          && Nat.testBit (S.vec.getD (n / BITS_PER_SLOT) 0) (n % BITS_PER_SLOT)) S.not)
    ∧ (S.vec.length ≤ n / BITS_PER_SLOT → is_number_in_set n S = S.not) := by
  constructor
  · unfold is_number_in_set number_isset
    rw [isset_testBit]
  · intro h
    unfold is_number_in_set
    rw [decide_eq_false (by omega), Bool.false_and, Bool.false_xor]

/-- Witness for C1: number 100 is past the single allocated slot of a
non-inverted set, so the test answers false. -/
theorem is_number_in_set_spec_witness :
    is_number_in_set 100 ⟨[5], false⟩ = false :=
  (is_number_in_set_spec 100 ⟨[5], false⟩).2 (by decide)

theorem add_action_flags_le (st : FilterActionState) (t : filter_action_type)
    (F : Nat) (h : Nat.testBit (add_action t st).default_flags F = true) :
    Nat.testBit st.default_flags F = true := by
  unfold add_action at h
  split at h
  · simp only [Nat.testBit_and, Bool.and_eq_true] at h
    exact h.1
  · exact h

theorem add_actions_flags_le (st : FilterActionState)
    (ts : List filter_action_type) (F : Nat)
    (h : Nat.testBit (add_actions ts st).default_flags F = true) :
    Nat.testBit st.default_flags F = true := by
  induction ts generalizing st with
  | nil => exact h
  | cons t ts ih => exact add_action_flags_le st t F (ih (add_action t st) h)

/-- C7: registering an action whose type carries qualifier bit F clears
bit F from default_flags, default_flags only ever loses bits across
add_action calls, and once an action with bit F has been added no later
sequence of add_action calls re-adds it. -/
theorem default_flags_monotone :
    (∀ (st : FilterActionState) (t : filter_action_type) (F : Nat), F < 32 →
        Nat.testBit t.qual_flg F = true →
        Nat.testBit (add_action t st).default_flags F = false)
    ∧ (∀ (st : FilterActionState) (ts : List filter_action_type) (F : Nat),
        Nat.testBit (add_actions ts st).default_flags F = true →
        Nat.testBit st.default_flags F = true)
    ∧ (∀ (st : FilterActionState) (t : filter_action_type)
        (ts : List filter_action_type) (F : Nat), F < 32 →
        Nat.testBit t.qual_flg F = true →
        Nat.testBit (add_actions ts (add_action t st)).default_flags F = false) := by
  have clear1 : ∀ (st : FilterActionState) (t : filter_action_type) (F : Nat),
      F < 32 → Nat.testBit t.qual_flg F = true →
      Nat.testBit (add_action t st).default_flags F = false := by
    intro st t F hF hbit
    unfold add_action
    split
    · simp only [cnot32, Nat.testBit_and, Nat.testBit_xor, hbit,
        Nat.testBit_two_pow_sub_one]
      simp [hF]
    · rename_i hg
      push_neg at hg
      have h0 : Nat.testBit (st.default_flags &&& t.qual_flg) F = false := by
        rw [hg]; exact Nat.zero_testBit F
      rw [Nat.testBit_and, hbit, Bool.and_true] at h0
      exact h0
  refine ⟨clear1, add_actions_flags_le, ?_⟩
  intro st t ts F hF hbit
  by_contra hne
  rw [Bool.not_eq_false] at hne
  have := add_actions_flags_le (add_action t st) ts F hne
  rw [clear1 st t F hF hbit] at this
  exact Bool.false_ne_true this

/-- Witness for C7: adding an inject action clears QUAL_INJECT (bit 4)
and a later trace action leaves it cleared. -/
theorem default_flags_monotone_witness :
    Nat.testBit (add_actions [⟨"trace".data, 0, QUAL_TRACE, false⟩]
      (add_action ⟨"inject".data, 1, QUAL_INJECT, true⟩ filter_state_init)).default_flags 4
      = false :=
  default_flags_monotone.2.2 filter_state_init
    ⟨"inject".data, 1, QUAL_INJECT, true⟩
    [⟨"trace".data, 0, QUAL_TRACE, false⟩] 4 (by decide) (by decide)

theorem action_le_iff (a b : filter_action) :
    action_le a b ↔ (a.type.priority < b.type.priority
      ∨ (a.type.priority = b.type.priority ∧ b.id < a.id)) := by
  unfold action_le compare_action_priority
  split_ifs <;> constructor <;> intro h <;> omega

/-- C6: the comparator never answers zero; any qsort result (a sorted
permutation of the registered actions) is ordered by priority ascending
with, inside one priority class, the larger (later-declared) id placed
first — filter_syscall then evaluates actions in exactly that list
order; and the sorted permutation is unique. -/
theorem filter_action_sort_spec :
    (∀ a b : filter_action, compare_action_priority a b ≠ 0)
    ∧ (∀ L Ls : List filter_action, filtering_parsing_finish_post L Ls →
        ∀ i j : Fin Ls.length, i < j →
          (Ls.get i).type.priority ≤ (Ls.get j).type.priority
          ∧ ((Ls.get i).type.priority = (Ls.get j).type.priority →
              (Ls.get j).id < (Ls.get i).id))
    ∧ (∀ L L1 L2 : List filter_action, filtering_parsing_finish_post L L1 →
        filtering_parsing_finish_post L L2 → L1 = L2) := by
  refine ⟨?_, ?_, ?_⟩
  · intro a b
    unfold compare_action_priority
    split_ifs <;> omega
  · intro L Ls hpost i j hij
    have hs := hpost.2
    rw [List.Sorted, List.pairwise_iff_get] at hs
    have := (action_le_iff _ _).mp (hs i j hij)
    omega
  · intro L L1 L2 h1 h2
    haveI : IsAntisymm filter_action action_le := ⟨by
      intro a b hab hba
      rw [action_le_iff] at hab hba
      exact False.elim (by omega)⟩
    exact List.eq_of_perm_of_sorted (h1.1.trans h2.1.symm) h1.2 h2.2

/-- Witness for C6: a concrete two-action finalised list (trace before
abbrev) satisfies the ordering conclusion. -/
theorem filter_action_sort_spec_witness :
    (([⟨0, ⟨"trace".data, 0, QUAL_TRACE, false⟩⟩,
       ⟨1, ⟨"abbrev".data, 2, QUAL_ABBREV, false⟩⟩] : List filter_action).get
        ⟨0, by decide⟩).type.priority
      ≤ (([⟨0, ⟨"trace".data, 0, QUAL_TRACE, false⟩⟩,
           ⟨1, ⟨"abbrev".data, 2, QUAL_ABBREV, false⟩⟩] : List filter_action).get
          ⟨1, by decide⟩).type.priority
    ∧ ((([⟨0, ⟨"trace".data, 0, QUAL_TRACE, false⟩⟩,
          ⟨1, ⟨"abbrev".data, 2, QUAL_ABBREV, false⟩⟩] : List filter_action).get
           ⟨0, by decide⟩).type.priority
        = (([⟨0, ⟨"trace".data, 0, QUAL_TRACE, false⟩⟩,
             ⟨1, ⟨"abbrev".data, 2, QUAL_ABBREV, false⟩⟩] : List filter_action).get
            ⟨1, by decide⟩).type.priority →
        (([⟨0, ⟨"trace".data, 0, QUAL_TRACE, false⟩⟩,
           ⟨1, ⟨"abbrev".data, 2, QUAL_ABBREV, false⟩⟩] : List filter_action).get
            ⟨1, by decide⟩).id
          < (([⟨0, ⟨"trace".data, 0, QUAL_TRACE, false⟩⟩,
               ⟨1, ⟨"abbrev".data, 2, QUAL_ABBREV, false⟩⟩] : List filter_action).get
              ⟨0, by decide⟩).id) :=
  filter_action_sort_spec.2.1
    [⟨0, ⟨"trace".data, 0, QUAL_TRACE, false⟩⟩,
     ⟨1, ⟨"abbrev".data, 2, QUAL_ABBREV, false⟩⟩]
    [⟨0, ⟨"trace".data, 0, QUAL_TRACE, false⟩⟩,
     ⟨1, ⟨"abbrev".data, 2, QUAL_ABBREV, false⟩⟩]
    ⟨List.Perm.refl _, by decide⟩ ⟨0, by decide⟩ ⟨1, by decide⟩ (by decide)

/-- C8: a negative fd matches exactly when the set is inverted; for
mq_timedsend / mq_timedreceive events the descriptor tested is argument
0; with the set parsed from the list 0,1 an mq_timedsend with fd
argument 1 matches and one with fd argument 2 does not. -/
theorem run_fd_filter_spec :
    (∀ (tcp : tcb) (fd : Int) (set : number_set), fd < 0 →
        is_fd_in_set tcp fd set = set.not)
    ∧ (∀ (mfc : tcb → (tcb → Int → number_set → Bool) → number_set → Bool)
        (tcp : tcb) (set : number_set),
        tcp.sen = SEN_mq_timedsend ∨ tcp.sen = SEN_mq_timedreceive →
        run_fd_filter mfc tcp set = is_fd_in_set tcp (tcp.u_arg.getD 0 0) set)
    ∧ (∀ (mfc : tcb → (tcb → Int → number_set → Bool) → number_set → Bool)
        (a : Nat) (rest : List Int) (S : number_set),
        parse_fd_filter "0,1".data true = some S →
        run_fd_filter mfc ⟨a, 1 :: rest, SEN_mq_timedsend⟩ S = true
        ∧ run_fd_filter mfc ⟨a, 2 :: rest, SEN_mq_timedsend⟩ S = false) := by
  refine ⟨?_, ?_, ?_⟩
  · intro tcp fd set h
    unfold is_fd_in_set
    rw [if_pos h]
  · intro mfc tcp set h
    unfold run_fd_filter
    rw [if_pos h]
  · intro mfc a rest S hS
    have hval : S = ⟨[3], false⟩ := by
      have hp : parse_fd_filter "0,1".data true = some ⟨[3], false⟩ := by decide
      rw [hp] at hS
      exact (Option.some_inj.mp hS).symm
    subst hval
    constructor
    · unfold run_fd_filter
      rw [if_pos (Or.inl rfl)]
      simp only [List.getD_cons_zero]
      unfold is_fd_in_set
      rw [if_neg (by decide)]
      decide
    · unfold run_fd_filter
      rw [if_pos (Or.inl rfl)]
      simp only [List.getD_cons_zero]
      unfold is_fd_in_set
      rw [if_neg (by decide)]
      decide

/-- Witness for C8: concrete events exercising every hypothesis. -/
theorem run_fd_filter_spec_witness :
    is_fd_in_set ⟨0, [-1], 0⟩ (-1) ⟨[], true⟩ = true
    ∧ (run_fd_filter (fun _ _ _ => false) ⟨7, [1], SEN_mq_timedsend⟩ ⟨[3], false⟩ = true
      ∧ run_fd_filter (fun _ _ _ => false) ⟨7, [2], SEN_mq_timedsend⟩ ⟨[3], false⟩ = false) :=
  ⟨run_fd_filter_spec.1 ⟨0, [-1], 0⟩ (-1) ⟨[], true⟩ (by decide),
   run_fd_filter_spec.2.2 (fun _ _ _ => false) 7 [] ⟨[3], false⟩ (by decide)⟩

theorem takeWhile_append_all {p : Char → Bool} {s : List Char} (t : List Char)
    (h : ∀ c ∈ s, p c) : (s ++ t).takeWhile p = s ++ t.takeWhile p := by
  induction s with
  | nil => simp
  | cons c cs ih =>
    have hc : p c = true := h c (List.mem_cons_self c cs)
    simp only [List.cons_append, List.takeWhile_cons, hc, if_true]
    rw [ih (fun x hx => h x (List.mem_cons_of_mem c hx))]

theorem dropWhile_append_all {p : Char → Bool} {s : List Char} (t : List Char)
    (h : ∀ c ∈ s, p c) : (s ++ t).dropWhile p = t.dropWhile p := by
  induction s with
  | nil => simp
  | cons c cs ih =>
    have hc : p c = true := h c (List.mem_cons_self c cs)
    simp only [List.cons_append, List.dropWhile_cons, hc, if_true]
    exact ih (fun x hx => h x (List.mem_cons_of_mem c hx))

theorem string_to_uint_ex_all_digits {s : List Char} (accepted : List Char)
    (max : Nat) (h1 : s ≠ []) (h2 : ∀ c ∈ s, c.isDigit) :
    string_to_uint_ex s accepted max
      = if digit_val s ≤ max then some (digit_val s, []) else none := by
  unfold string_to_uint_ex
  have ht : s.takeWhile Char.isDigit = s := by
    have := takeWhile_append_all (p := Char.isDigit) [] h2
    simpa using this
  have hd : s.dropWhile Char.isDigit = [] := by
    have := dropWhile_append_all (p := Char.isDigit) [] h2
    simpa using this
  rw [ht, hd]
  have hne : s.isEmpty = false := by
    cases s with
    | nil => exact absurd rfl h1
    | cons a l => rfl
  by_cases hm : digit_val s ≤ max <;>
    simp [hne, hm, Nat.not_le.mpr, Nat.not_lt.mpr]

theorem string_to_uint_ex_digits_cons {s t : List Char} {c : Char}
    (accepted : List Char) (max : Nat) (h1 : s ≠ []) (h2 : ∀ x ∈ s, x.isDigit)
    (hc : ¬ c.isDigit) :
    string_to_uint_ex (s ++ c :: t) accepted max
      = if digit_val s ≤ max then
          (if accepted.contains c then some (digit_val s, c :: t) else none)
        else none := by
  unfold string_to_uint_ex
  rw [takeWhile_append_all _ h2, dropWhile_append_all _ h2,
    List.takeWhile_cons_of_neg hc, List.dropWhile_cons_of_neg hc, List.append_nil]
  have hne : s.isEmpty = false := by
    cases s with
    | nil => exact absurd rfl h1
    | cons a l => rfl
  by_cases hm : digit_val s ≤ max <;>
    simp [hne, hm, Nat.not_le.mpr, Nat.not_lt.mpr]

theorem string_to_uint_upto_all_digits {s : List Char} (max : Nat)
    (h1 : s ≠ []) (h2 : ∀ c ∈ s, c.isDigit) :
    string_to_uint_upto s max
      = if digit_val s ≤ max then some (digit_val s) else none := by
  unfold string_to_uint_upto
  rw [string_to_uint_ex_all_digits [] max h1 h2]
  by_cases hm : digit_val s ≤ max <;> simp [hm]

theorem strip_pre_append (pre s : List Char) : strip_pre pre (pre ++ s) = some s := by
  unfold strip_pre
  rw [if_pos (List.take_left pre s), List.drop_left]

/-- C4: the when= token forms: when=F sets (first=F, step=0), when=F+
sets (first=F, step=1), when=F+S sets (first=F, step=S); each form
parses successfully exactly when F (and S, where present) lies in
1..65535. -/
theorem parse_inject_token_when (env : InjectEnv) (sF sS : List Char) (F S : Nat)
    (o : inject_opts) (ft : Bool)
    (hF1 : sF ≠ []) (hF2 : ∀ c ∈ sF, c.isDigit) (hFv : digit_val sF = F)
    (hS1 : sS ≠ []) (hS2 : ∀ c ∈ sS, c.isDigit) (hSv : digit_val sS = S) :
    (parse_inject_token env ("when=".data ++ sF) o ft
        = if 1 ≤ F ∧ F ≤ 65535 then (true, { o with first := F, step := 0 })
          else (false, o))
    ∧ (parse_inject_token env ("when=".data ++ (sF ++ ['+'])) o ft
        = if 1 ≤ F ∧ F ≤ 65535 then (true, { o with first := F, step := 1 })
          else (false, o))
    ∧ (parse_inject_token env ("when=".data ++ (sF ++ '+' :: sS)) o ft
        = if 1 ≤ F ∧ F ≤ 65535 then
            (if 1 ≤ S ∧ S ≤ 65535 then (true, { o with first := F, step := S })
             else (false, { o with first := F }))
          else (false, o)) := by
  subst hFv
  subst hSv
  have hz0 : digit_val sF = 0 ∨ ¬(digit_val sF = 0) := em _
  refine ⟨?_, ?_, ?_⟩
  · unfold parse_inject_token
    simp only [strip_pre_append, string_to_uint_ex_all_digits _ _ hF1 hF2]
    by_cases hm : digit_val sF ≤ 65535
    · by_cases hz : digit_val sF = 0
      · rw [if_neg (show ¬(1 ≤ digit_val sF ∧ digit_val sF ≤ 65535) by omega)]
        simp [hm, hz]
      · rw [if_pos (show 1 ≤ digit_val sF ∧ digit_val sF ≤ 65535 by omega)]
        simp [hm, hz]
    · rw [if_neg (show ¬(1 ≤ digit_val sF ∧ digit_val sF ≤ 65535) by omega)]
      simp [hm]
  · unfold parse_inject_token
    simp only [strip_pre_append,
      @string_to_uint_ex_digits_cons sF [] '+' ['+'] 65535 hF1 hF2 (by decide)]
    by_cases hm : digit_val sF ≤ 65535
    · by_cases hz : digit_val sF = 0
      · rw [if_neg (show ¬(1 ≤ digit_val sF ∧ digit_val sF ≤ 65535) by omega)]
        simp [hm, hz]
      · rw [if_pos (show 1 ≤ digit_val sF ∧ digit_val sF ≤ 65535 by omega)]
        simp [hm, hz]
    · rw [if_neg (show ¬(1 ≤ digit_val sF ∧ digit_val sF ≤ 65535) by omega)]
      simp [hm]
  · obtain ⟨c0, t0, rfl⟩ := List.exists_cons_of_ne_nil hS1
    unfold parse_inject_token
    simp only [strip_pre_append,
      @string_to_uint_ex_digits_cons sF (c0 :: t0) '+' ['+'] 65535 hF1 hF2 (by decide),
      string_to_uint_upto_all_digits _ (List.cons_ne_nil c0 t0) hS2]
    by_cases hm : digit_val sF ≤ 65535
    · by_cases hz : digit_val sF = 0
      · rw [if_neg (show ¬(1 ≤ digit_val sF ∧ digit_val sF ≤ 65535) by omega)]
        simp [hm, hz]
      · rw [if_pos (show 1 ≤ digit_val sF ∧ digit_val sF ≤ 65535 by omega)]
        by_cases hsm : digit_val (c0 :: t0) ≤ 65535
        · by_cases hsz : digit_val (c0 :: t0) = 0
          · rw [if_neg (show ¬(1 ≤ digit_val (c0 :: t0) ∧ digit_val (c0 :: t0) ≤ 65535)
              by omega)]
            simp [hm, hz, hsm, hsz,
              string_to_uint_upto_all_digits _ (List.cons_ne_nil c0 t0) hS2]
          · rw [if_pos (show 1 ≤ digit_val (c0 :: t0) ∧ digit_val (c0 :: t0) ≤ 65535
              by omega)]
            simp [hm, hz, hsm, hsz,
              string_to_uint_upto_all_digits _ (List.cons_ne_nil c0 t0) hS2]
        · rw [if_neg (show ¬(1 ≤ digit_val (c0 :: t0) ∧ digit_val (c0 :: t0) ≤ 65535)
            by omega)]
          simp [hm, hz, hsm,
            string_to_uint_upto_all_digits _ (List.cons_ne_nil c0 t0) hS2]
    · rw [if_neg (show ¬(1 ≤ digit_val sF ∧ digit_val sF ≤ 65535) by omega)]
      simp [hm]

/-- Witness for C4: when=65535+65535 is accepted with first and step
65535; when=0 and when=65536 are rejected. -/
theorem parse_inject_token_when_witness :
    parse_inject_token inject_env_model
        ("when=".data ++ (['6','5','5','3','5'] ++ '+' :: ['6','5','5','3','5']))
        inject_opts_defaults true
      = (true, { inject_opts_defaults with first := 65535, step := 65535 })
    ∧ parse_inject_token inject_env_model ("when=".data ++ ['0'])
        inject_opts_defaults true
      = (false, inject_opts_defaults)
    ∧ parse_inject_token inject_env_model ("when=".data ++ ['6','5','5','3','6'])
        inject_opts_defaults true
      = (false, inject_opts_defaults) := by
  have h := parse_inject_token_when inject_env_model
    ['6','5','5','3','5'] ['6','5','5','3','5'] 65535 65535
    inject_opts_defaults true (by decide) (by decide) (by decide)
    (by decide) (by decide) (by decide)
  have h0 := parse_inject_token_when inject_env_model ['0'] ['1'] 0 1
    inject_opts_defaults true (by decide) (by decide) (by decide)
    (by decide) (by decide) (by decide)
  have h6 := parse_inject_token_when inject_env_model ['6','5','5','3','6'] ['1'] 65536 1
    inject_opts_defaults true (by decide) (by decide) (by decide)
    (by decide) (by decide) (by decide)
  refine ⟨?_, ?_, ?_⟩
  · rw [h.2.2]; decide
  · rw [h0.1]; decide
  · rw [h6.1]; decide

theorem inject_token_preserves_init (env : InjectEnv) (t : List Char)
    (o : inject_opts) (ft : Bool) :
    (parse_inject_token env t o ft).2.init = o.init := by
  unfold parse_inject_token
  (repeat' split) <;> rfl

theorem inject_token_loop_init (env : InjectEnv) (ft : Bool)
    (ts : List (List Char)) (o : inject_opts) :
    (inject_token_loop env ft ts o).2.init = o.init := by
  induction ts generalizing o with
  | nil => rfl
  | cons t ts ih =>
    unfold inject_token_loop
    by_cases h : (parse_inject_token env t o ft).1 = true <;>
      simp only [h, if_true, if_false, Bool.false_eq_true, reduceIte]
    · rw [ih]
      exact inject_token_preserves_init env t o ft
    · exact inject_token_preserves_init env t o ft

theorem parse_inject_common_args_eq (env : InjectEnv) (s : List Char)
    (ft qm : Bool) (b : Bool) (o : inject_opts)
    (h : inject_token_loop env ft (split_tokens (if qm then ':' else ';') s)
        inject_opts_defaults = (b, o)) :
    parse_inject_common_args env s ft qm
      = if b then
          (if o.rval = INJECT_OPTS_RVAL_DEFAULT ∧ o.signo = 0 then
            (if ft then { o with rval := -(ENOSYS : Int), init := true } else o)
          else { o with init := true })
        else o := by
  unfold parse_inject_common_args
  simp only [h]

/-- C5: when the token loop completes with rval still the default
sentinel and signo 0, fault syntax defaults rval to -ENOSYS and sets
initialised, while inject syntax leaves initialised false (rejection);
and initialised can only become true when the token loop completes. -/
theorem parse_inject_common_args_postcheck (env : InjectEnv) (s : List Char)
    (qm : Bool) :
    (∀ o : inject_opts,
        inject_token_loop env true (split_tokens (if qm then ':' else ';') s)
            inject_opts_defaults = (true, o) →
        o.rval = INJECT_OPTS_RVAL_DEFAULT → o.signo = 0 →
        parse_inject_common_args env s true qm
          = { o with rval := -(ENOSYS : Int), init := true })
    ∧ (∀ o : inject_opts,
        inject_token_loop env false (split_tokens (if qm then ':' else ';') s)
            inject_opts_defaults = (true, o) →
        o.rval = INJECT_OPTS_RVAL_DEFAULT → o.signo = 0 →
        parse_inject_common_args env s false qm = o ∧ o.init = false)
    ∧ (∀ ft : Bool, (parse_inject_common_args env s ft qm).init = true →
        (inject_token_loop env ft (split_tokens (if qm then ':' else ';') s)
            inject_opts_defaults).1 = true
        ∧ ((inject_token_loop env ft (split_tokens (if qm then ':' else ';') s)
              inject_opts_defaults).2.rval ≠ INJECT_OPTS_RVAL_DEFAULT
           ∨ (inject_token_loop env ft (split_tokens (if qm then ':' else ';') s)
                inject_opts_defaults).2.signo ≠ 0
           ∨ ft = true)) := by
  refine ⟨?_, ?_, ?_⟩
  · intro o h hr hs
    unfold parse_inject_common_args
    simp [h, hr, hs]
  · intro o h hr hs
    have hinit : o.init = false := by
      have hi := inject_token_loop_init env false
        (split_tokens (if qm then ':' else ';') s) inject_opts_defaults
      rw [h] at hi
      exact hi
    unfold parse_inject_common_args
    simp [h, hr, hs, hinit]
  · intro ft h
    rcases hloop : inject_token_loop env ft (split_tokens (if qm then ':' else ';') s)
      inject_opts_defaults with ⟨b, o2⟩
    have ho2 : o2.init = false := by
      have hi := inject_token_loop_init env ft (split_tokens (if qm then ':' else ';') s)
        inject_opts_defaults
      rw [hloop] at hi
      exact hi
    cases b with
    | false =>
      exfalso
      unfold parse_inject_common_args at h
      simp [hloop, ho2] at h
    | true =>
      refine ⟨rfl, ?_⟩
      by_cases hc : o2.rval = INJECT_OPTS_RVAL_DEFAULT
      · by_cases hcs : o2.signo = 0
        · cases ft with
          | true => exact Or.inr (Or.inr rfl)
          | false =>
            exfalso
            unfold parse_inject_common_args at h
            simp [hloop, hc, hcs, ho2] at h
        · exact Or.inr (Or.inl hcs)
      · exact Or.inl hc

/-- Witness for C5: the empty argument string completes the token loop
with the defaults; fault mode installs -ENOSYS, inject mode rejects. -/
theorem parse_inject_common_args_postcheck_witness :
    parse_inject_common_args inject_env_model [] true true
      = { inject_opts_defaults with rval := -(ENOSYS : Int), init := true }
    ∧ (parse_inject_common_args inject_env_model [] false true = inject_opts_defaults
       ∧ inject_opts_defaults.init = false) := by
  have h := parse_inject_common_args_postcheck inject_env_model [] true
  exact ⟨h.1 inject_opts_defaults (by decide) (by decide) (by decide),
         h.2.1 inject_opts_defaults (by decide) (by decide) (by decide)⟩

/-- Counterexample for C9: at the concrete inputs error=ENOSYS and the
empty fault argument string, the two parsed inject_opts agree on
initialised as well (both true) — they are identical in every field, so
it is false that only initialised differs. -/
theorem fault_args_enosys_counterexample :
    (parse_inject_common_args inject_env_model "error=ENOSYS".data true true).init
      = (parse_inject_common_args inject_env_model [] true true).init
    ∧ parse_inject_common_args inject_env_model "error=ENOSYS".data true true
      = parse_inject_common_args inject_env_model [] true true := by
  decide

/-- C9 (amended): in fault syntax, error=ENOSYS and an absent or empty
argument string produce identical inject_opts in every field,
initialised included: first=1, step=1, rval=-ENOSYS, signo=0,
initialised=true in both. -/
theorem fault_args_enosys_equal (env : InjectEnv)
    (h : find_errno_by_name env "ENOSYS".data = some ENOSYS) :
    parse_inject_common_args env "error=ENOSYS".data true true
      = parse_inject_common_args env [] true true
    ∧ parse_inject_common_args env [] true true
      = ⟨1, 1, -(ENOSYS : Int), 0, true⟩ := by
  have hright : parse_inject_common_args env [] true true
      = ⟨1, 1, -(ENOSYS : Int), 0, true⟩ := rfl
  have htok : parse_inject_token env "error=ENOSYS".data inject_opts_defaults true
      = (true, ⟨1, 1, -(ENOSYS : Int), 0, false⟩) := by
    unfold parse_inject_token
    simp only [show strip_pre "when=".data "error=ENOSYS".data = none from by decide,
      show strip_pre "error=".data "error=ENOSYS".data = some "ENOSYS".data from by
        decide,
      show string_to_uint_upto "ENOSYS".data MAX_ERRNO_VALUE = none from by decide, h]
    decide
  have hloop2 : inject_token_loop env true
      (split_tokens (if true then ':' else ';') "error=ENOSYS".data)
      inject_opts_defaults = (true, ⟨1, 1, -(ENOSYS : Int), 0, false⟩) := by
    rw [show split_tokens (if true then ':' else ';') "error=ENOSYS".data
        = ["error=ENOSYS".data] from by decide]
    simp [inject_token_loop, htok]
  have hleft : parse_inject_common_args env "error=ENOSYS".data true true
      = ⟨1, 1, -(ENOSYS : Int), 0, true⟩ := by
    rw [parse_inject_common_args_eq env "error=ENOSYS".data true true true
      ⟨1, 1, -(ENOSYS : Int), 0, false⟩ hloop2]
    decide
  exact ⟨hleft.trans hright.symm, hright⟩

/-- Witness for C9's amended theorem at the concrete errno table. -/
theorem fault_args_enosys_equal_witness :
    parse_inject_common_args inject_env_model "error=ENOSYS".data true true
      = parse_inject_common_args inject_env_model [] true true :=
  (fault_args_enosys_equal inject_env_model (by decide)).1

theorem getD_append_zeros (v : List Nat) (j i : Nat) :
    (v ++ List.replicate j 0).getD i 0 = v.getD i 0 := by
  induction v generalizing i with
  | nil =>
    simp only [List.nil_append, List.getD_nil]
    induction j generalizing i with
    | zero => rfl
    | succ k ihk =>
      cases i with
      | zero => rfl
      | succ m => simpa [List.replicate_succ] using ihk m
  | cons x xs ih =>
    cases i with
    | zero => rfl
    | succ m => simpa using ih m

theorem getD_eq_zero_of_le (v : List Nat) (i : Nat) (h : v.length ≤ i) :
    v.getD i 0 = 0 := by
  rw [List.getD_eq_getElem?_getD, List.getElem?_eq_none h]
  rfl

theorem getD_realloc (v : List Nat) (k i : Nat) :
    (reallocate_vec v k).getD i 0 = v.getD i 0 := by
  unfold reallocate_vec
  split
  · rfl
  · exact getD_append_zeros v _ i

theorem length_realloc (v : List Nat) (k : Nat) :
    (reallocate_vec v k).length = max v.length k := by
  unfold reallocate_vec
  split <;> simp <;> omega

theorem getD_add_vec (n i : Nat) (s : number_set) :
    (add_number_to_set n s).vec.getD i 0
      = if i = n / BITS_PER_SLOT
        then s.vec.getD i 0 ||| (1 <<< (n % BITS_PER_SLOT))
        else s.vec.getD i 0 := by
  show (number_setbit n (reallocate_vec s.vec (n / BITS_PER_SLOT + 1))).getD i 0 = _
  unfold number_setbit
  have hlen : n / BITS_PER_SLOT
      < (reallocate_vec s.vec (n / BITS_PER_SLOT + 1)).length := by
    rw [length_realloc]
    omega
  rw [List.getD_eq_getElem?_getD, List.getElem?_set]
  by_cases hij : n / BITS_PER_SLOT = i
  · rw [if_pos hij, if_pos (hij ▸ hlen), if_pos hij.symm]
    subst hij
    rw [getD_realloc]
    rfl
  · rw [if_neg hij, if_neg (fun hh => hij hh.symm), ← List.getD_eq_getElem?_getD,
      getD_realloc]

theorem raw_in_set_eq (m : Nat) (s : number_set) :
    raw_in_set m s
      = Nat.testBit (s.vec.getD (m / BITS_PER_SLOT) 0) (m % BITS_PER_SLOT) := by
  unfold raw_in_set number_isset
  rw [isset_testBit]
  by_cases h : m / BITS_PER_SLOT < s.vec.length
  · simp [h]
  · rw [getD_eq_zero_of_le s.vec _ (Nat.le_of_not_lt h)]
    simp [h]

theorem raw_in_set_add (m n : Nat) (s : number_set) :
    raw_in_set m (add_number_to_set n s) = (decide (m = n) || raw_in_set m s) := by
  rw [raw_in_set_eq, raw_in_set_eq]
  have hvec : (add_number_to_set n s).vec.getD (m / BITS_PER_SLOT) 0 = _ :=
    getD_add_vec n (m / BITS_PER_SLOT) s
  rw [hvec]
  by_cases hdiv : m / BITS_PER_SLOT = n / BITS_PER_SLOT
  · rw [if_pos hdiv]
    rw [Nat.shiftLeft_eq, one_mul, Nat.testBit_or, Nat.testBit_two_pow]
    by_cases hmod : n % BITS_PER_SLOT = m % BITS_PER_SLOT
    · have hmn : m = n := by
        have hm := Nat.div_add_mod m BITS_PER_SLOT
        have hn := Nat.div_add_mod n BITS_PER_SLOT
        rw [hdiv, ← hmod] at hm
        omega
      simp [hmod, hmn]
    · have hmn : ¬(m = n) := fun hh => hmod (by rw [hh])
      simp [hmod, hmn]
  · rw [if_neg hdiv]
    have hmn : ¬(m = n) := fun hh => hdiv (by rw [hh])
    simp [hmn]

theorem is_number_eq_xor_raw (m : Nat) (s : number_set) :
    is_number_in_set m s = Bool.xor (raw_in_set m s) s.not := rfl

theorem sem_eq_raw {a b : number_set} (h : set_sem_eq a b) (m : Nat) :
    raw_in_set m a = raw_in_set m b := by
  have h2 := h.2 m
  rw [is_number_eq_xor_raw, is_number_eq_xor_raw, h.1] at h2
  cases hc : b.not <;> rw [hc] at h2 <;> simpa using h2

theorem sem_eq_add (n : Nat) {a b : number_set} (h : set_sem_eq a b) :
    set_sem_eq (add_number_to_set n a) (add_number_to_set n b) := by
  refine ⟨h.1, fun m => ?_⟩
  rw [is_number_eq_xor_raw, is_number_eq_xor_raw, raw_in_set_add, raw_in_set_add,
    sem_eq_raw h m,
    show (add_number_to_set n a).not = a.not from rfl,
    show (add_number_to_set n b).not = b.not from rfl, h.1]

theorem sem_eq_flip {a b : number_set} (h : set_sem_eq a b) :
    set_sem_eq (flipNot a) (flipNot b) := by
  refine ⟨congrArg (fun x => !x) h.1, fun m => ?_⟩
  rw [is_number_eq_xor_raw, is_number_eq_xor_raw]
  have h1 : raw_in_set m (flipNot a) = raw_in_set m a := rfl
  have h2 : raw_in_set m (flipNot b) = raw_in_set m b := rfl
  have h3 : (flipNot a).not = (!a.not) := rfl
  have h4 : (flipNot b).not = (!b.not) := rfl
  rw [h1, h2, h3, h4, sem_eq_raw h m, h.1]

theorem set_token_loop_sem (func : List Char → Option Nat) (ts : List (List Char))
    {a b : number_set} (h : set_sem_eq a b) :
    ((set_token_loop func ts a).isSome ↔ (set_token_loop func ts b).isSome)
    ∧ ∀ r r2, set_token_loop func ts a = some r → set_token_loop func ts b = some r2 →
        set_sem_eq r r2 := by
  induction ts generalizing a b with
  | nil =>
    refine ⟨by simp [set_token_loop], fun r r2 hr hr2 => ?_⟩
    rw [set_token_loop] at hr hr2
    cases Option.some_inj.mp hr
    cases Option.some_inj.mp hr2
    exact h
  | cons t ts ih =>
    unfold set_token_loop
    cases hf : func t with
    | none => simp
    | some n => exact ih (sem_eq_add n h)

theorem strip_bangs_one_sem (s : List Char) {a b : number_set} (h : set_sem_eq a b) :
    (strip_bangs_one s a).1 = (strip_bangs_one s b).1
    ∧ set_sem_eq (strip_bangs_one s a).2 (strip_bangs_one s b).2 := by
  induction s generalizing a b with
  | nil => exact ⟨rfl, h⟩
  | cons c rest ih =>
    unfold strip_bangs_one
    by_cases hc : c = '!'
    · rw [if_pos hc, if_pos hc]
      exact ih (sem_eq_flip h)
    · rw [if_neg hc, if_neg hc]
      exact ⟨rfl, h⟩

theorem parse_set_core_sem (s : List Char) (func : List Char → Option Nat)
    {a b : number_set} (h : set_sem_eq a b) :
    ((parse_set_core s a func).isSome ↔ (parse_set_core s b func).isSome)
    ∧ ∀ r r2, parse_set_core s a func = some r → parse_set_core s b func = some r2 →
        set_sem_eq r r2 := by
  unfold parse_set_core
  by_cases h1 : s = "none".data
  · rw [if_pos h1, if_pos h1]
    refine ⟨by simp, fun r r2 hr hr2 => ?_⟩
    cases Option.some_inj.mp hr
    cases Option.some_inj.mp hr2
    exact h
  · rw [if_neg h1, if_neg h1]
    by_cases h2 : s = "all".data
    · rw [if_pos h2, if_pos h2]
      refine ⟨by simp, fun r r2 hr hr2 => ?_⟩
      cases Option.some_inj.mp hr
      cases Option.some_inj.mp hr2
      exact sem_eq_flip h
    · rw [if_neg h2, if_neg h2]
      by_cases h3 : (split_tokens ',' s).isEmpty
      · rw [if_pos h3, if_pos h3]
        exact ⟨Iff.rfl, fun r r2 hr _ => absurd hr (by simp)⟩
      · rw [if_neg h3, if_neg h3]
        exact set_token_loop_sem func (split_tokens ',' s) h

theorem parse_set_sem (str : List Char) (func : List Char → Option Nat) (qm : Bool)
    {a b : number_set} (h : set_sem_eq a b) :
    ((parse_set str a func qm).isSome ↔ (parse_set str b func qm).isSome)
    ∧ ∀ r r2, parse_set str a func qm = some r → parse_set str b func qm = some r2 →
        set_sem_eq r r2 := by
  cases qm with
  | false =>
    have e1 : parse_set str a func false = parse_set_core str a func := rfl
    have e2 : parse_set str b func false = parse_set_core str b func := rfl
    rw [e1, e2]
    exact parse_set_core_sem str func h
  | true =>
    have hs := strip_bangs_one_sem str h
    have e1 : parse_set str a func true
        = parse_set_core (strip_bangs_one str a).1 (strip_bangs_one str a).2 func := rfl
    have e2 : parse_set str b func true
        = parse_set_core (strip_bangs_one str b).1 (strip_bangs_one str b).2 func := rfl
    rw [e1, e2, hs.1]
    exact parse_set_core_sem _ func hs.2

theorem sem_eq_zeros (k : Nat) :
    set_sem_eq ⟨List.replicate k 0, false⟩ ⟨[], false⟩ := by
  refine ⟨rfl, fun m => ?_⟩
  rw [is_number_eq_xor_raw, is_number_eq_xor_raw, raw_in_set_eq, raw_in_set_eq]
  have hz : (List.replicate k 0).getD (m / BITS_PER_SLOT) 0 = 0 := by
    have hh := getD_append_zeros [] k (m / BITS_PER_SLOT)
    simpa using hh
  rw [hz]
  rfl

/-- C10: the signal qualifier first resets the global signal_set (all
allocated slots zeroed, inversion flag false) before parsing, so a
second signal specification yields — as a set — the same result as
parsing it alone into a fresh set: a later list replaces an earlier
one. -/
theorem qualify_signals_reset :
    (∀ (env : InjectEnv) (s : List Char) (sig : number_set),
        qualify_signals env s sig
          = parse_set s ⟨List.replicate sig.vec.length 0, false⟩
              (sigstr_to_uint env) true)
    ∧ (∀ (env : InjectEnv) (s1 s2 : List Char) (st0 st1 : number_set),
        qualify_signals env s1 st0 = some st1 →
        ((qualify_signals env s2 st1).isSome ↔
          (qualify_signals env s2 ⟨[], false⟩).isSome)
        ∧ ∀ r r2, qualify_signals env s2 st1 = some r →
            qualify_signals env s2 ⟨[], false⟩ = some r2 → set_sem_eq r r2) := by
  refine ⟨fun env s sig => rfl, fun env s1 s2 st0 st1 _ => ?_⟩
  have hbase := parse_set_sem s2 (sigstr_to_uint env) true
    (sem_eq_zeros st1.vec.length)
  exact hbase

/-- Witness for C10: a first signal list 1 and a second list 2; the
second parse into the reset one-slot set succeeds exactly like the
parse into a fresh set. -/
theorem qualify_signals_reset_witness :
    (qualify_signals inject_env_model "2".data ⟨[2], false⟩).isSome ↔
      (qualify_signals inject_env_model "2".data ⟨[], false⟩).isSome :=
  (qualify_signals_reset.2 inject_env_model "1".data "2".data ⟨[], false⟩ ⟨[2], false⟩
    (by decide)).1

theorem add_flipNot (n : Nat) (s : number_set) :
    add_number_to_set n (flipNot s) = flipNot (add_number_to_set n s) := rfl

theorem add_sel_go_flip (pred : sysent_entry → Bool) (tbl : List sysent_entry)
    (i : Nat) (fnd : Bool) (s : number_set) :
    add_sel_go pred tbl i fnd (flipNot s)
      = ((add_sel_go pred tbl i fnd s).1, flipNot (add_sel_go pred tbl i fnd s).2) := by
  induction tbl generalizing i fnd s with
  | nil => rfl
  | cons e rest ih =>
    unfold add_sel_go
    by_cases hp : pred e = true
    · rw [if_pos hp, if_pos hp, add_flipNot]
      exact ih (i + 1) true (add_number_to_set i s)
    · rw [if_neg hp, if_neg hp]
      exact ih (i + 1) fnd s

theorem over_pers_flip (f : List sysent_entry → number_set → Bool × number_set)
    (hf : ∀ t s, f t (flipNot s) = ((f t s).1, flipNot (f t s).2)) :
    ∀ (ts : List (List sysent_entry)) (ss : List number_set),
      over_pers f ts (flip_all ss)
        = ((over_pers f ts ss).1, flip_all (over_pers f ts ss).2) := by
  intro ts
  induction ts with
  | nil => intro ss; rfl
  | cons t ts ih =>
    intro ss
    cases ss with
    | nil => rfl
    | cons s ss2 =>
      show over_pers f (t :: ts) (flipNot s :: flip_all ss2) = _
      unfold over_pers
      rw [hf t s, ih ss2]
      rfl

theorem parse_syscall_number_flip (env : SyscallEnv) (s : List Char)
    (ss : List number_set) :
    parse_syscall_number env s (flip_all ss)
      = ((parse_syscall_number env s ss).1,
         flip_all (parse_syscall_number env s ss).2) := by
  unfold parse_syscall_number
  cases string_to_uint s with
  | none => rfl
  | some n =>
    exact over_pers_flip _ (fun t s2 => by
      by_cases h : n < t.length
      · rw [if_pos h, if_pos h, add_flipNot]
      · rw [if_neg h, if_neg h]) env.pers ss

theorem parse_syscall_regex_flip (env : SyscallEnv) (s : List Char)
    (ss : List number_set) :
    parse_syscall_regex env s (flip_all ss)
      = ((parse_syscall_regex env s ss).1,
         flip_all (parse_syscall_regex env s ss).2) := by
  unfold parse_syscall_regex
  exact over_pers_flip _ (fun t s2 => add_sel_go_flip _ t 0 false s2) env.pers ss

theorem parse_syscall_name_flip (env : SyscallEnv) (s : List Char)
    (ss : List number_set) :
    parse_syscall_name env s (flip_all ss)
      = ((parse_syscall_name env s ss).1,
         flip_all (parse_syscall_name env s ss).2) := by
  unfold parse_syscall_name
  exact over_pers_flip _ (fun t s2 => add_sel_go_flip _ t 0 false s2) env.pers ss

theorem parse_syscall_class_flip (env : SyscallEnv) (s : List Char)
    (ss : List number_set) (qm : Bool) :
    parse_syscall_class env s (flip_all ss) qm
      = ((parse_syscall_class env s ss qm).1,
         flip_all (parse_syscall_class env s ss qm).2) := by
  unfold parse_syscall_class
  by_cases h : lookup_class s qm = 0
  · rw [if_pos h, if_pos h]
  · rw [if_neg h, if_neg h]
    rw [over_pers_flip _ (fun t s2 => add_sel_go_flip _ t 0 false s2) env.pers ss]

theorem parse_syscall_stripped_flip (env : SyscallEnv) (tok : List Char) (ig : Bool)
    (ss : List number_set) (qm : Bool) :
    parse_syscall_stripped env tok ig (flip_all ss) qm
      = ((parse_syscall_stripped env tok ig ss qm).1,
         flip_all (parse_syscall_stripped env tok ig ss qm).2) := by
  cases tok with
  | nil =>
    simp only [parse_syscall_stripped]
    rw [parse_syscall_class_flip]
    rcases hc : parse_syscall_class env [] ss qm with ⟨cd, css⟩
    cases cd with
    | true => rfl
    | false =>
      exact congrArg (fun p : Bool × List number_set => (p.1 || ig, p.2))
        (parse_syscall_name_flip env [] css)
  | cons c rest =>
    simp only [parse_syscall_stripped]
    by_cases hd : '0' ≤ c ∧ c ≤ '9'
    · rw [if_pos hd, if_pos hd, parse_syscall_number_flip]
    · rw [if_neg hd, if_neg hd]
      by_cases hs : c = '/'
      · rw [if_pos hs, if_pos hs, parse_syscall_regex_flip]
      · rw [if_neg hs, if_neg hs, parse_syscall_class_flip]
        rcases hc : parse_syscall_class env (c :: rest) ss qm with ⟨cd, css⟩
        cases cd with
        | true => rfl
        | false =>
          exact congrArg (fun p : Bool × List number_set => (p.1 || ig, p.2))
            (parse_syscall_name_flip env (c :: rest) css)

theorem parse_syscall_flip (env : SyscallEnv) (token : List Char)
    (ss : List number_set) (qm : Bool) :
    parse_syscall env token (flip_all ss) qm
      = ((parse_syscall env token ss qm).1,
         flip_all (parse_syscall env token ss qm).2) := by
  unfold parse_syscall
  exact parse_syscall_stripped_flip env (strip_qs token).1 (strip_qs token).2 ss qm

theorem syscall_token_loop_flip (env : SyscallEnv) (qm : Bool)
    (ts : List (List Char)) : ∀ ss : List number_set,
    syscall_token_loop env qm ts (flip_all ss)
      = Option.map flip_all (syscall_token_loop env qm ts ss) := by
  induction ts with
  | nil => intro ss; rfl
  | cons t ts ih =>
    intro ss
    unfold syscall_token_loop
    rw [parse_syscall_flip]
    by_cases h : (parse_syscall env t ss qm).1 = true
    · rw [if_pos h, if_pos h]
      exact ih _
    · rw [if_neg h, if_neg h]
      rfl

theorem strip_bangs_flip (s : List Char) : ∀ ss : List number_set,
    strip_bangs s (flip_all ss)
      = ((strip_bangs s ss).1, flip_all (strip_bangs s ss).2) := by
  induction s with
  | nil => intro ss; rfl
  | cons c rest ih =>
    intro ss
    unfold strip_bangs
    by_cases hc : c = '!'
    · rw [if_pos hc, if_pos hc]
      exact ih (flip_all ss)
    · rw [if_neg hc, if_neg hc]

theorem parse_syscall_set_core_flip (env : SyscallEnv) (s : List Char)
    (ss : List number_set) (qm : Bool) :
    parse_syscall_set_core env s (flip_all ss) qm
      = Option.map flip_all (parse_syscall_set_core env s ss qm) := by
  unfold parse_syscall_set_core
  by_cases h1 : s = "none".data
  · rw [if_pos h1, if_pos h1]
    rfl
  · rw [if_neg h1, if_neg h1]
    by_cases h2 : s = "all".data
    · rw [if_pos h2, if_pos h2]
      rfl
    · rw [if_neg h2, if_neg h2]
      by_cases h3 : (split_tokens ',' s).isEmpty = true
      · rw [if_pos h3, if_pos h3]
        rfl
      · rw [if_neg h3, if_neg h3]
        exact syscall_token_loop_flip env qm _ ss

theorem parse_syscall_set_flip (env : SyscallEnv) (P : List Char)
    (ss : List number_set) :
    parse_syscall_set env P (flip_all ss) true
      = Option.map flip_all (parse_syscall_set env P ss true) := by
  have e1 : parse_syscall_set env P (flip_all ss) true
      = parse_syscall_set_core env (strip_bangs P (flip_all ss)).1
          (strip_bangs P (flip_all ss)).2 true := rfl
  have e2 : parse_syscall_set env P ss true
      = parse_syscall_set_core env (strip_bangs P ss).1 (strip_bangs P ss).2 true := rfl
  rw [e1, e2, strip_bangs_flip P ss]
  exact parse_syscall_set_core_flip env _ _ true

theorem parse_syscall_set_bang (env : SyscallEnv) (P : List Char)
    (ss : List number_set) :
    parse_syscall_set env ('!' :: P) ss true
      = parse_syscall_set env P (flip_all ss) true := rfl

theorem parse_syscall_set_bangs_iter (env : SyscallEnv) (k : Nat) (P : List Char)
    (ss : List number_set) :
    parse_syscall_set env (List.replicate k '!' ++ P) ss true
      = parse_syscall_set env P (flip_all^[k] ss) true := by
  induction k generalizing ss with
  | zero => rfl
  | succ m ih =>
    rw [List.replicate_succ, List.cons_append, parse_syscall_set_bang, ih (flip_all ss),
      Function.iterate_succ_apply]

theorem flip_all_flip_all (ss : List number_set) : flip_all (flip_all ss) = ss := by
  unfold flip_all
  rw [List.map_map]
  have hid : (flipNot ∘ flipNot) = id := by
    funext s
    cases s with
    | mk v n =>
      show flipNot (flipNot ⟨v, n⟩) = ⟨v, n⟩
      simp [flipNot]
  rw [hid, List.map_id]

theorem flip_all_iterate (k : Nat) (ss : List number_set) :
    flip_all^[k] ss = if k % 2 = 1 then flip_all ss else ss := by
  induction k generalizing ss with
  | zero => rfl
  | succ m ih =>
    rw [Function.iterate_succ_apply, ih (flip_all ss)]
    by_cases h : m % 2 = 1
    · rw [if_pos h, flip_all_flip_all, if_neg (by omega)]
    · rw [if_neg h, if_pos (by omega)]

/-- C2: in qualify mode, k leading bangs are consumed and the parse of
the rest proceeds with every personality's invert flag XORed by k mod 2
(same bit vectors, invert toggled when k is odd); in non-qualify mode no
bang stripping happens at all — the string goes straight to the body. -/
theorem parse_syscall_set_bang_inversion (env : SyscallEnv) (k : Nat) (P : List Char)
    (sets : List number_set) :
    parse_syscall_set env (List.replicate k '!' ++ P) sets true
      = Option.map (fun ss => ss.map (fun s =>
          (⟨s.vec, Bool.xor (decide (k % 2 = 1)) s.not⟩ : number_set)))
          (parse_syscall_set env P sets true)
    ∧ (∀ (s : List Char) (ss : List number_set),
        parse_syscall_set env s ss false = parse_syscall_set_core env s ss false) := by
  constructor
  · rw [parse_syscall_set_bangs_iter, flip_all_iterate]
    by_cases h : k % 2 = 1
    · rw [if_pos h, parse_syscall_set_flip]
      have hfun : (fun s : number_set =>
          (⟨s.vec, Bool.xor (decide (k % 2 = 1)) s.not⟩ : number_set)) = flipNot := by
        funext s
        rw [h]
        show (⟨s.vec, Bool.xor true s.not⟩ : number_set) = flipNot s
        rw [Bool.true_xor]
        rfl
      have hfn : (fun ss : List number_set => ss.map (fun s =>
          (⟨s.vec, Bool.xor (decide (k % 2 = 1)) s.not⟩ : number_set))) = flip_all := by
        funext ss2
        rw [hfun]
        rfl
      rw [hfn]
    · rw [if_neg h]
      have hfun : (fun s : number_set =>
          (⟨s.vec, Bool.xor (decide (k % 2 = 1)) s.not⟩ : number_set)) = id := by
        funext s
        rw [decide_eq_false h]
        show (⟨s.vec, Bool.xor false s.not⟩ : number_set) = s
        rw [Bool.false_xor]
      have hfn : (fun ss : List number_set => ss.map (fun s =>
          (⟨s.vec, Bool.xor (decide (k % 2 = 1)) s.not⟩ : number_set))) = id := by
        funext ss2
        rw [hfun, List.map_id]
        rfl
      rw [hfn, Option.map_id]
      rfl
  · intro s ss
    rfl

/-- C3: parsing the literal none adds nothing and keeps every invert
flag; parsing the literal all only flips every invert flag; parsing all
then none equals parsing all alone. -/
theorem parse_syscall_set_none_all (env : SyscallEnv) (ss : List number_set)
    (qm : Bool) :
    parse_syscall_set env "none".data ss qm = some ss
    ∧ parse_syscall_set env "all".data ss qm = some (flip_all ss)
    ∧ (parse_syscall_set env "all".data ss qm).bind
        (fun ss2 => parse_syscall_set env "none".data ss2 qm)
        = parse_syscall_set env "all".data ss qm := by
  have hnone : ∀ s2 : List number_set,
      parse_syscall_set env "none".data s2 qm = some s2 := by
    intro s2
    cases qm <;> rfl
  have hall : parse_syscall_set env "all".data ss qm = some (flip_all ss) := by
    cases qm <;> rfl
  refine ⟨hnone ss, hall, ?_⟩
  rw [hall]
  show (some (flip_all ss)).bind (fun ss2 => parse_syscall_set env "none".data ss2 qm)
      = some (flip_all ss)
  rw [Option.some_bind, hnone (flip_all ss)]

end StraceFilter
